import Mathlib

/-!
Verification of the ACPI firmware-table discovery layer (`src/acpi/`):
root-pointer (RSDP) location and checksum validation, the RSDT/XSDT root
lists, the table registry keyed by signature tuples, the MADT tagged-record
iterator, and the architecture-specific interrupt-controller bring-up.

Machine bytes are modelled as `Nat` values (each byte `< 256` where the
arithmetic depends on it); memory regions are `List Nat` (byte lists) or
`Nat → Nat` (byte at index) together with an explicit length bound.
-/

/-- Little-endian read of `n` bytes of `data` starting at `off`
(out-of-range bytes read as 0, mirroring a typed read that the code only
performs in bounds). -/
def readLE (data : List Nat) (off : Nat) : Nat → Nat
  | 0 => 0
  | n + 1 => data.getD off 0 + 256 * readLE data (off + 1) n

/-- Little-endian encoding of the value `v` into `n` bytes. -/
def toLEBytes : Nat → Nat → List Nat
  | 0, _ => []
  | n + 1, v => (v % 256) :: toLEBytes n (v / 256)

/-- Contiguous encoding of a list of values, `w` bytes each
(the layout of an RSDT root list for `w = 4`, of an XSDT one for `w = 8`). -/
def encodeLE (w : Nat) : List Nat → List Nat
  | [] => []
  | a :: rest => toLEBytes w a ++ encodeLE w rest

/-- The `n` bytes of the byte memory `mem` starting at offset `off`. -/
def bytesAt (mem : Nat → Nat) (off n : Nat) : List Nat :=
  (List.range n).map (fun j => mem (off + j))

/-! ## Root System Description Pointer (`src/acpi/rsdp.rs`) -/

/-- Checksum test of `RSDP::validate_checksum`: the first 20 bytes are
summed with `u8::wrapping_add` starting from 0 and the result compared
with 0. -/
def checksum_valid (bytes : List Nat) : Bool :=
  ((bytes.take 20).foldl (fun acc b => (acc + b) % 256) 0) == 0

/-- An RSDP candidate, as the raw bytes of the descriptor structure. -/
structure RSDP where
  bytes : List Nat
deriving DecidableEq

/-- Method `RSDP::validate_checksum`. -/
def RSDP.validate_checksum (r : RSDP) : Bool :=
  checksum_valid r.bytes

/-- Function `RSDP::get_already_supplied_rsdp`: return the supplied
candidate only when its checksum validates. -/
def get_already_supplied_rsdp (r : RSDP) : Option RSDP :=
  if r.validate_checksum then some r else none

/-- Function `RSDP::get_rsdp`. The result of `get_rsdp_by_searching`
(the scan of the fixed physical window) is passed as `searchResult`;
the source computes
`already_supplied_rsdp.and_then(get_already_supplied_rsdp).or_else(|| get_rsdp_by_searching(mapper))`. -/
def get_rsdp (searchResult : Option RSDP) (alreadySuppliedRsdp : Option RSDP) : Option RSDP :=
  match alreadySuppliedRsdp.bind get_already_supplied_rsdp with
  | some r => some r
  | none => searchResult

/-! ## Table registry (`src/acpi/mod.rs`) -/

/-- A mapped table reference: its address (distinct tables live at distinct
addresses) and the header fields that form the registry key.  The source
key type is `(String, [u8; 6], [u8; 8])`; the `String` component is the
UTF-8-lossy rendering of the 4 signature bytes, modelled here by the bytes
themselves. -/
structure SdtRef where
  addr : Nat
  signature : List Nat
  oem_id : List Nat
  oem_table_id : List Nat
deriving DecidableEq

/-- Registry key, per `get_sdt_signature`. -/
def get_sdt_signature (sdt : SdtRef) : List Nat × List Nat × List Nat :=
  (sdt.signature, sdt.oem_id, sdt.oem_table_id)

/-- One `HashMap::insert`: replaces the entry with an equal key, otherwise
appends. -/
def sdtInsert (m : List ((List Nat × List Nat × List Nat) × SdtRef))
    (k : List Nat × List Nat × List Nat) (v : SdtRef) :
    List ((List Nat × List Nat × List Nat) × SdtRef) :=
  match m with
  | [] => [(k, v)]
  | (k', v') :: rest =>
    if k' = k then (k, v) :: rest else (k', v') :: sdtInsert rest k v

/-- The registry-building loop of `acpi::init`: every successfully mapped
table is inserted keyed by its signature tuple. -/
def buildRegistry (tables : List SdtRef) :
    List ((List Nat × List Nat × List Nat) × SdtRef) :=
  tables.foldl (fun m t => sdtInsert m (get_sdt_signature t) t) []

/-- Function `find_sdt`: `SDT_POINTERS` may still be `None` (registry not
built), in which case the result is the empty vector; otherwise all values
whose key's signature component equals `name` are collected. -/
def find_sdt (st : Option (List ((List Nat × List Nat × List Nat) × SdtRef)))
    (name : List Nat) : List SdtRef :=
  match st with
  | none => []
  | some ptrs => ptrs.filterMap (fun kv => if kv.1.1 = name then some kv.2 else none)

/-! ## Root lists (`src/acpi/rsdt.rs`, `src/acpi/xsdt.rs`) -/

/-- Sequence produced by `RsdtIter` over a table data region `data`:
`data_len / 4` entries, entry `i` a 4-byte unaligned little-endian read at
byte offset `4 * i`. -/
def rsdtEntries (data : List Nat) : List Nat :=
  (List.range (data.length / 4)).map (fun i => readLE data (4 * i) 4)

/-- Sequence produced by `XsdtIter` over a table data region `data`:
`data_len / 8` entries, entry `i` an 8-byte unaligned little-endian read at
byte offset `8 * i`. -/
def xsdtEntries (data : List Nat) : List Nat :=
  (List.range (data.length / 8)).map (fun i => readLE data (8 * i) 8)

/-! ## MADT tagged-record iterator (`src/acpi/madt/mod.rs`)

The iterator state is the cursor `i` into the table's data region, which is
modelled as a byte memory `mem : Nat → Nat` together with its length
`dataLen` (the table's `data_len()`).  Typed entries carry the payload
bytes their `repr(C, packed)` struct covers. -/

/-- Byte size of `MadtLocalApic` (`processor: u8, id: u8, flags: u32`). -/
def MadtLocalApic.size : Nat := 1 + 1 + 4

/-- Byte size of `MadtIoApic` (`id: u8, _reserved: u8, address: u32, gsi_base: u32`). -/
def MadtIoApic.size : Nat := 1 + 1 + 4 + 4

/-- Byte size of `MadtIntSrcOverride`
(`bus_source: u8, irq_source: u8, gsi_base: u32, flags: u16`). -/
def MadtIntSrcOverride.size : Nat := 1 + 1 + 4 + 2

/-- Byte size of `MadtGicc` (packed fields `u16, 5 × u32, 4 × u64, u32,
2 × u64, u8, u8, u16`). -/
def MadtGicc.size : Nat := 2 + 4 + 4 + 4 + 4 + 4 + 8 + 8 + 8 + 8 + 4 + 8 + 8 + 1 + 1 + 2

/-- Byte size of `MadtGicd`
(`_reserved: u16, gic_id: u32, physical_base_address: u64, system_vector_base: u32, gic_version: u8, _reserved2: [u8; 3]`). -/
def MadtGicd.size : Nat := 2 + 4 + 8 + 4 + 1 + 3

/-- MADT entry variants, payloads as raw byte lists. -/
inductive MadtEntry where
  | LocalApic (payload : List Nat)
  | IoApic (payload : List Nat)
  | IntSrcOverride (payload : List Nat)
  | Gicc (payload : List Nat)
  | Gicd (payload : List Nat)
  | Unknown (tag : Nat)
deriving DecidableEq

/-- Field `MadtLocalApic.processor` (offset 0). -/
def MadtLocalApic.processor (p : List Nat) : Nat := p.getD 0 0

/-- Field `MadtLocalApic.id` (offset 1). -/
def MadtLocalApic.id (p : List Nat) : Nat := p.getD 1 0

/-- Field `MadtLocalApic.flags` (u32 at offset 2). -/
def MadtLocalApic.flags (p : List Nat) : Nat := readLE p 2 4

/-- Field `MadtGicc.physical_base_address` (u64 at packed offset 30). -/
def MadtGicc.physical_base_address (p : List Nat) : Nat := readLE p 30 8

/-- Field `MadtGicd.physical_base_address` (u64 at packed offset 6). -/
def MadtGicd.physical_base_address (p : List Nat) : Nat := readLE p 6 8

/-- Field `MadtGicd.gic_version` (u8 at packed offset 18). -/
def MadtGicd.gic_version (p : List Nat) : Nat := p.getD 18 0

/-- One call of `MadtIter::next` at cursor `i`: `none` models the iterator
returning `None`, `some (e, j)` models yielding entry `e` with the cursor
left at `j`.  Mirrors the source line by line: the `i + 1 >= data_len()`
guard, the tag/length reads, the `i + entry_len > data_len()` truncation
check, the guarded dispatch, and `self.i += entry_len`. -/
def madtStep (mem : Nat → Nat) (dataLen : Nat) (i : Nat) : Option (MadtEntry × Nat) :=
  if i + 1 ≥ dataLen then none
  else
    let entry_type := mem i
    let entry_len := mem (i + 1)
    if i + entry_len > dataLen then none
    else
      let item :=
        if entry_type = 0x0 ∧ entry_len = MadtLocalApic.size + 2 then
          MadtEntry.LocalApic (bytesAt mem (i + 2) MadtLocalApic.size)
        else if entry_type = 0x1 ∧ entry_len = MadtIoApic.size + 2 then
          MadtEntry.IoApic (bytesAt mem (i + 2) MadtIoApic.size)
        else if entry_type = 0x2 ∧ entry_len = MadtIntSrcOverride.size + 2 then
          MadtEntry.IntSrcOverride (bytesAt mem (i + 2) MadtIntSrcOverride.size)
        else if entry_type = 0xB ∧ entry_len ≥ MadtGicc.size + 2 then
          MadtEntry.Gicc (bytesAt mem (i + 2) MadtGicc.size)
        else if entry_type = 0xC ∧ entry_len ≥ MadtGicd.size + 2 then
          MadtEntry.Gicd (bytesAt mem (i + 2) MadtGicd.size)
        else
          MadtEntry.Unknown entry_type
      some (item, i + entry_len)

/-- The record sequence obtained by running `MadtIter::next` repeatedly
from cursor `i`, cut off after `fuel` steps (the Rust iterator has no such
cut-off; `fuel` makes the traversal a total function so that
non-termination of the source loop is expressible as the sequence growing
with `fuel`). -/
def madtSeq (mem : Nat → Nat) (dataLen : Nat) : Nat → Nat → List MadtEntry
  | 0, _ => []
  | fuel + 1, i =>
    match madtStep mem dataLen i with
    | none => []
    | some (e, j) => e :: madtSeq mem dataLen fuel j

/-- First Gicd payload of an entry list (statement vocabulary for the
first-distributor-wins property). -/
def madtFirstGicd : List MadtEntry → Option (List Nat)
  | [] => none
  | MadtEntry.Gicd p :: _ => some p
  | _ :: rest => madtFirstGicd rest

/-- All Gicc payloads of an entry list, in order. -/
def madtGiccs : List MadtEntry → List (List Nat)
  | [] => []
  | MadtEntry.Gicc p :: rest => p :: madtGiccs rest
  | _ :: rest => madtGiccs rest

/-- Number of Gicd records in an entry list. -/
def madtGicdCount : List MadtEntry → Nat
  | [] => 0
  | MadtEntry.Gicd _ :: rest => madtGicdCount rest + 1
  | _ :: rest => madtGicdCount rest

/-! ## aarch64 interrupt-controller bring-up (`src/acpi/madt/arch/aarch64.rs`)

Driver registration (`register_irq_chip` pushing into `IRQ_CHIP`) and the
log calls are modelled as the returned lists; memory mapping of a device
base is modelled by carrying the physical base address itself. -/

/-- Log events emitted during aarch64 GIC bring-up. -/
inductive LogEvent where
  | warnMultipleGicd
  | warnNoGicd
  | infoGicDist (base : Nat)
  | infoGicCpuIf (base : Nat)
  | infoGicV3CpuIf
  | warnUnsupportedGicVersion (v : Nat)
deriving DecidableEq

/-- A registered interrupt-chip driver: `gic` is the legacy
`GenericInterruptController` (distributor base, CPU-interface base),
`gicV3` the `GicV3` driver (distributor base only — its CPU interface
needs no mapping). -/
inductive IrqChipDriver where
  | gic (distBase : Nat) (cpuIfBase : Nat)
  | gicV3 (distBase : Nat)
deriving DecidableEq

/-- The entry-collection loop at the top of aarch64 `init`: Gicc payloads
are accumulated in order, the first Gicd payload is kept, every further
Gicd record is logged and discarded. -/
def aarch64.collect : Option (List Nat) → List (List Nat) → List LogEvent →
    List MadtEntry → Option (List Nat) × List (List Nat) × List LogEvent
  | g, gs, ls, [] => (g, gs, ls)
  | g, gs, ls, MadtEntry.Gicc p :: rest => aarch64.collect g (gs ++ [p]) ls rest
  | none, gs, ls, MadtEntry.Gicd p :: rest => aarch64.collect (some p) gs ls rest
  | some g, gs, ls, MadtEntry.Gicd _ :: rest =>
    aarch64.collect (some g) gs (ls ++ [LogEvent.warnMultipleGicd]) rest
  | g, gs, ls, _ :: rest => aarch64.collect g gs ls rest

/-- Source function `initialize_gic_v1_v2`: only the first Gicc is used
(`giccs.iter().take(1)`); for it a legacy driver is built from the mapped
distributor and the Gicc's mapped physical base, and registered. -/
def aarch64.init_gic_legacy (giccs : List (List Nat)) (dist : Nat) :
    List IrqChipDriver × List LogEvent :=
  ((giccs.take 1).map (fun g => IrqChipDriver.gic dist (MadtGicc.physical_base_address g)),
   (giccs.take 1).map (fun g => LogEvent.infoGicCpuIf (MadtGicc.physical_base_address g)))

/-- Source function `initialize_gic_v3`: only the first Gicc is used; a
`GicV3` driver is built (no per-Gicc mapping) and registered. -/
def aarch64.init_gic_v3 (giccs : List (List Nat)) (dist : Nat) :
    List IrqChipDriver × List LogEvent :=
  ((giccs.take 1).map (fun _ => IrqChipDriver.gicV3 dist),
   (giccs.take 1).map (fun _ => LogEvent.infoGicV3CpuIf))

/-- Source function aarch64 `init`: collect entries, abort with a warning
when no distributor exists, otherwise dispatch on the distributor's
`gic_version`. Returns the registered drivers and the log. -/
def aarch64.init (entries : List MadtEntry) : List IrqChipDriver × List LogEvent :=
  let c := aarch64.collect none [] [] entries
  match c.1 with
  | none => ([], c.2.2 ++ [LogEvent.warnNoGicd])
  | some gicd =>
    let dist := MadtGicd.physical_base_address gicd
    let logs := c.2.2 ++ [LogEvent.infoGicDist dist]
    if MadtGicd.gic_version gicd = 1 ∨ MadtGicd.gic_version gicd = 2 then
      let r := aarch64.init_gic_legacy c.2.1 dist
      (r.1, logs ++ r.2)
    else if MadtGicd.gic_version gicd = 3 then
      let r := aarch64.init_gic_v3 c.2.1 dist
      (r.1, logs ++ r.2)
    else ([], logs ++ [LogEvent.warnUnsupportedGicVersion (MadtGicd.gic_version gicd)])

/-! ## x86 processor bring-up (`src/acpi/madt/arch/x86.rs`)

Only the per-record control flow of the `multi_core` loop is modelled: the
frame allocator `allocate_p2frame(4)` is an oracle `alloc` indexed by call
number, and `.expect("no more frames for ACPI stack")` on its `None`
result is a kernel panic, modelled as `Except.error` aborting the whole
loop. -/

/-- Machine page size used for the AP stack span (`PAGE_SIZE << 4`). -/
def PAGE_SIZE : Nat := 4096

/-- A secondary core whose startup handshake was driven to completion. -/
structure StartedAp where
  processor : Nat
  apicId : Nat
  stackStart : Nat
  stackEnd : Nat
deriving DecidableEq

/-- The MADT-entry loop of x86 `init`: `me` is the boot core's APIC id,
`physOffset` the kernel's physical offset, `alloc k` the result of the
`k`-th `allocate_p2frame(4)` call.  A record whose id equals `me` or whose
enabled bit is clear is skipped; otherwise a stack frame is allocated
(panicking if allocation fails) and the core is started. -/
def x86InitAps (me physOffset : Nat) (alloc : Nat → Option Nat) :
    Nat → List MadtEntry → Except String (List StartedAp)
  | _, [] => Except.ok []
  | k, MadtEntry.LocalApic p :: rest =>
    if MadtLocalApic.id p = me then
      x86InitAps me physOffset alloc k rest
    else if MadtLocalApic.flags p % 2 = 1 then
      match alloc k with
      | none => Except.error "no more frames for ACPI stack"
      | some frameBase =>
        let stackStart := frameBase + physOffset
        let stackEnd := stackStart + PAGE_SIZE * 16
        match x86InitAps me physOffset alloc (k + 1) rest with
        | Except.ok aps =>
          Except.ok ({ processor := MadtLocalApic.processor p,
                       apicId := MadtLocalApic.id p,
                       stackStart := stackStart, stackEnd := stackEnd } :: aps)
        | Except.error msg => Except.error msg
    else
      x86InitAps me physOffset alloc k rest
  | k, _ :: rest => x86InitAps me physOffset alloc k rest

/-! ## Theorems -/

/-- C2 (amended): with a supplied root-pointer address, `get_rsdp` returns
the supplied descriptor when its checksum validates; when the checksum
fails it falls back to the result of scanning the fixed physical window
(`get_rsdp_by_searching`), rather than returning none. -/
theorem get_rsdp_supplied_behavior (search : Option RSDP) (r : RSDP) :
    (r.validate_checksum = true → get_rsdp search (some r) = some r) ∧
    (r.validate_checksum = false → get_rsdp search (some r) = search) := by
  constructor <;> intro h <;>
    simp [get_rsdp, get_already_supplied_rsdp, h, Option.bind]

/-- C2 counterexample: a supplied candidate with an invalid checksum does
not make `get_rsdp` return without scanning — the scan's (distinct)
descriptor is returned. -/
theorem get_rsdp_supplied_invalid_scans :
    get_rsdp (some ⟨List.replicate 36 0⟩) (some ⟨1 :: List.replicate 35 0⟩) =
      some ⟨List.replicate 36 0⟩ ∧
    (⟨List.replicate 36 0⟩ : RSDP) ≠ ⟨1 :: List.replicate 35 0⟩ ∧
    get_rsdp (some ⟨List.replicate 36 0⟩) (some ⟨1 :: List.replicate 35 0⟩) ≠
      get_rsdp none (some ⟨1 :: List.replicate 35 0⟩) := by
  decide

/-- Witness for C2 at a concrete valid descriptor. -/
theorem get_rsdp_supplied_behavior_witness :
    (RSDP.mk (List.replicate 36 0)).validate_checksum = true ∧
    get_rsdp none (some (RSDP.mk (List.replicate 36 0))) =
      some (RSDP.mk (List.replicate 36 0)) :=
  ⟨by decide, (get_rsdp_supplied_behavior none (RSDP.mk (List.replicate 36 0))).1 (by decide)⟩

/-- C9: `find_sdt` is total (never panics): on a not-yet-built registry it
returns the empty list, and on a registry with no entry matching the
signature it also returns the empty list. -/
theorem find_sdt_no_panic (name : List Nat)
    (m : List ((List Nat × List Nat × List Nat) × SdtRef))
    (habsent : ∀ kv ∈ m, kv.1.1 ≠ name) :
    find_sdt none name = [] ∧ find_sdt (some m) name = [] := by
  refine ⟨rfl, ?_⟩
  simp only [find_sdt, List.filterMap_eq_nil_iff]
  intro kv hkv
  simp [habsent kv hkv]

/-- Witness for C9: a registry holding one HPET table has no APIC entry. -/
theorem find_sdt_no_panic_witness :
    (∀ kv ∈ [((([72, 80, 69, 84] : List Nat), ([0, 0, 0, 0, 0, 0] : List Nat),
        ([0, 0, 0, 0, 0, 0, 0, 0] : List Nat)),
        SdtRef.mk 4096 [72, 80, 69, 84] [0, 0, 0, 0, 0, 0] [0, 0, 0, 0, 0, 0, 0, 0])],
      kv.1.1 ≠ [65, 80, 73, 67]) ∧
    find_sdt none [65, 80, 73, 67] = [] ∧
    find_sdt (some [((([72, 80, 69, 84] : List Nat), ([0, 0, 0, 0, 0, 0] : List Nat),
        ([0, 0, 0, 0, 0, 0, 0, 0] : List Nat)),
        SdtRef.mk 4096 [72, 80, 69, 84] [0, 0, 0, 0, 0, 0] [0, 0, 0, 0, 0, 0, 0, 0])])
      [65, 80, 73, 67] = [] :=
  ⟨by decide, find_sdt_no_panic [65, 80, 73, 67] _ (by decide)⟩

/-- C5 counterexample: two mapped tables with identical key tuples
(signature, OEM id, OEM table id) but distinct addresses are deduplicated
by the registry — the lookup returns only the later one, not both. -/
theorem registry_identical_key_dedup :
    find_sdt (some (buildRegistry
        [SdtRef.mk 4096 [65, 80, 73, 67] [65, 65, 65, 65, 65, 65] [66, 66, 66, 66, 66, 66, 66, 66],
         SdtRef.mk 8192 [65, 80, 73, 67] [65, 65, 65, 65, 65, 65] [66, 66, 66, 66, 66, 66, 66, 66]]))
      [65, 80, 73, 67] =
      [SdtRef.mk 8192 [65, 80, 73, 67] [65, 65, 65, 65, 65, 65] [66, 66, 66, 66, 66, 66, 66, 66]] ∧
    SdtRef.mk 4096 [65, 80, 73, 67] [65, 65, 65, 65, 65, 65] [66, 66, 66, 66, 66, 66, 66, 66] ∉
      find_sdt (some (buildRegistry
        [SdtRef.mk 4096 [65, 80, 73, 67] [65, 65, 65, 65, 65, 65] [66, 66, 66, 66, 66, 66, 66, 66],
         SdtRef.mk 8192 [65, 80, 73, 67] [65, 65, 65, 65, 65, 65] [66, 66, 66, 66, 66, 66, 66, 66]]))
      [65, 80, 73, 67] := by
  decide

/-- C5 (amended): the registry preserves tables whose key tuples differ —
in particular, inserting two tables with the same 4-byte signature but
different OEM ids makes both retrievable by a lookup on that signature. -/
theorem registry_distinct_oem_preserved (t1 t2 : SdtRef)
    (hsig : t1.signature = t2.signature) (hoem : t1.oem_id ≠ t2.oem_id) :
    find_sdt (some (buildRegistry [t1, t2])) t1.signature = [t1, t2] := by
  have hk : ¬(get_sdt_signature t1 = get_sdt_signature t2) := by
    intro h
    exact hoem (congrArg (fun q => q.2.1) h)
  simp only [buildRegistry, List.foldl, sdtInsert, find_sdt]
  rw [if_neg hk]
  simp [get_sdt_signature, hsig]

/-- Witness for C5 at two concrete tables differing only in OEM id. -/
theorem registry_distinct_oem_preserved_witness :
    (SdtRef.mk 4096 [65, 80, 73, 67] [65, 0, 0, 0, 0, 0] [0, 0, 0, 0, 0, 0, 0, 0]).signature =
      (SdtRef.mk 8192 [65, 80, 73, 67] [66, 0, 0, 0, 0, 0] [0, 0, 0, 0, 0, 0, 0, 0]).signature ∧
    (SdtRef.mk 4096 [65, 80, 73, 67] [65, 0, 0, 0, 0, 0] [0, 0, 0, 0, 0, 0, 0, 0]).oem_id ≠
      (SdtRef.mk 8192 [65, 80, 73, 67] [66, 0, 0, 0, 0, 0] [0, 0, 0, 0, 0, 0, 0, 0]).oem_id ∧
    find_sdt (some (buildRegistry
        [SdtRef.mk 4096 [65, 80, 73, 67] [65, 0, 0, 0, 0, 0] [0, 0, 0, 0, 0, 0, 0, 0],
         SdtRef.mk 8192 [65, 80, 73, 67] [66, 0, 0, 0, 0, 0] [0, 0, 0, 0, 0, 0, 0, 0]]))
      [65, 80, 73, 67] =
      [SdtRef.mk 4096 [65, 80, 73, 67] [65, 0, 0, 0, 0, 0] [0, 0, 0, 0, 0, 0, 0, 0],
       SdtRef.mk 8192 [65, 80, 73, 67] [66, 0, 0, 0, 0, 0] [0, 0, 0, 0, 0, 0, 0, 0]] :=
  ⟨rfl, by decide,
    registry_distinct_oem_preserved
      (SdtRef.mk 4096 [65, 80, 73, 67] [65, 0, 0, 0, 0, 0] [0, 0, 0, 0, 0, 0, 0, 0])
      (SdtRef.mk 8192 [65, 80, 73, 67] [66, 0, 0, 0, 0, 0] [0, 0, 0, 0, 0, 0, 0, 0])
      rfl (by decide)⟩

/-- C6 (amended): a frame-allocation failure while preparing an eligible
secondary core's stack is fatal: the whole bring-up loop aborts with the
panic message, and no further MADT record is processed. -/
theorem x86_alloc_failure_aborts (me physOffset : Nat) (alloc : Nat → Option Nat)
    (k : Nat) (p : List Nat) (rest : List MadtEntry)
    (hid : MadtLocalApic.id p ≠ me) (hen : MadtLocalApic.flags p % 2 = 1)
    (halloc : alloc k = none) :
    x86InitAps me physOffset alloc k (MadtEntry.LocalApic p :: rest) =
      Except.error "no more frames for ACPI stack" := by
  simp [x86InitAps, hid, hen, halloc]

/-- C6 counterexample: with an exhausted frame allocator and two enabled
secondary-core records, the bring-up loop ends in the panic rather than
skipping the first core and starting the second. -/
theorem x86_alloc_failure_fatal :
    x86InitAps 0 0 (fun _ => none) 0
      [MadtEntry.LocalApic [1, 1, 1, 0, 0, 0], MadtEntry.LocalApic [2, 2, 1, 0, 0, 0]] =
      Except.error "no more frames for ACPI stack" := by
  rfl

/-- Witness for C6 at a concrete eligible record. -/
theorem x86_alloc_failure_aborts_witness :
    MadtLocalApic.id [1, 1, 1, 0, 0, 0] ≠ 0 ∧
    MadtLocalApic.flags [1, 1, 1, 0, 0, 0] % 2 = 1 ∧
    x86InitAps 0 0 (fun _ => none) 0 [MadtEntry.LocalApic [1, 1, 1, 0, 0, 0]] =
      Except.error "no more frames for ACPI stack" :=
  ⟨by decide, by decide,
    x86_alloc_failure_aborts 0 0 (fun _ => none) 0 [1, 1, 1, 0, 0, 0] []
      (by decide) (by decide) rfl⟩

/-- The wrapping-u8 fold of `RSDP::validate_checksum` computes the byte
sum mod 256. -/
theorem checksum_foldl_mod (l : List Nat) :
    ∀ a : Nat, l.foldl (fun acc b => (acc + b) % 256) (a % 256) = (a + l.sum) % 256 := by
  induction l with
  | nil => intro a; simp
  | cons b t ih =>
    intro a
    simp only [List.foldl_cons, List.sum_cons]
    have h1 : (a % 256 + b) % 256 = (a + b) % 256 := by omega
    rw [h1, ih (a + b)]
    omega

/-- Characterization of `checksum_valid` on a 20-byte buffer. -/
theorem checksum_valid_iff (l : List Nat) (h : l.length = 20) :
    checksum_valid l = true ↔ l.sum % 256 = 0 := by
  have h0 : l.take 20 = l := List.take_of_length_le (by omega)
  have hf := checksum_foldl_mod l 0
  rw [Nat.zero_mod] at hf
  simp only [checksum_valid, h0, hf, Nat.zero_add, beq_iff_eq]

/-- Replacing one element shifts a list sum by the difference. -/
theorem sum_set_add (l : List Nat) : ∀ (i v : Nat), i < l.length →
    (l.set i v).sum + l.getD i 0 = l.sum + v := by
  induction l with
  | nil => intro i v h; simp at h
  | cons b t ih =>
    intro i v h
    cases i with
    | zero => simp [List.sum_cons]; omega
    | succ i =>
      simp only [List.set, List.sum_cons, List.getD_cons_succ]
      have := ih i v (by simpa using h)
      omega

/-- An element of a list of naturals is at most the sum. -/
theorem getD_le_sum (l : List Nat) : ∀ i : Nat, i < l.length → l.getD i 0 ≤ l.sum := by
  induction l with
  | nil => intro i h; simp at h
  | cons b t ih =>
    intro i h
    cases i with
    | zero => simp [List.sum_cons]
    | succ i =>
      simp only [List.getD_cons_succ, List.sum_cons]
      have := ih i (by simpa using h)
      omega

/-- C7: the root-descriptor checksum validator accepts exactly the 20-byte
buffers whose byte sum is 0 mod 256; on a valid buffer changing any single
byte to a different byte value breaks validity; and for any such corrupted
buffer there is exactly one value of the checksum byte (offset 8) that
restores validity. -/
theorem rsdp_checksum_algebra (bytes : List Nat) (h20 : bytes.length = 20)
    (hbyte : ∀ b ∈ bytes, b < 256) :
    (checksum_valid bytes = true ↔ bytes.sum % 256 = 0) ∧
    (∀ i v, i < 20 → v < 256 → v ≠ bytes.getD i 0 → checksum_valid bytes = true →
      checksum_valid (bytes.set i v) = false) ∧
    (∀ i v, i < 20 → v < 256 →
      ∃! c, c < 256 ∧ checksum_valid ((bytes.set i v).set 8 c) = true) := by
  have hmain := checksum_valid_iff bytes h20
  refine ⟨hmain, ?_, ?_⟩
  · intro i v hi hv hne hvalid
    have hlen : i < bytes.length := by omega
    have hsum0 : bytes.sum % 256 = 0 := hmain.mp hvalid
    have hset := sum_set_add bytes i v hlen
    have hmem : bytes.getD i 0 ∈ bytes := by
      rw [List.getD_eq_getElem bytes 0 hlen]
      exact List.getElem_mem hlen
    have hold : bytes.getD i 0 < 256 := hbyte _ hmem
    by_contra hcon
    rw [Bool.not_eq_false] at hcon
    have hs := (checksum_valid_iff _ (by simp [h20])).mp hcon
    omega
  · intro i v hi hv
    have h8 : (8 : Nat) < (bytes.set i v).length := by simp [h20]
    have hold8 : (bytes.set i v).getD 8 0 ≤ (bytes.set i v).sum :=
      getD_le_sum _ 8 h8
    refine ⟨(256 - ((bytes.set i v).sum - (bytes.set i v).getD 8 0) % 256) % 256,
      ⟨by omega, ?_⟩, ?_⟩
    · have hset8 := sum_set_add (bytes.set i v)
        8 ((256 - ((bytes.set i v).sum - (bytes.set i v).getD 8 0) % 256) % 256) h8
      rw [checksum_valid_iff _ (by simp [h20])]
      omega
    · intro y hy
      obtain ⟨hy1, hy2⟩ := hy
      have hset8 := sum_set_add (bytes.set i v) 8 y h8
      rw [checksum_valid_iff _ (by simp [h20])] at hy2
      omega

/-- Witness for C7 at the all-zero 20-byte buffer. -/
theorem rsdp_checksum_algebra_witness :
    (List.replicate 20 0).length = 20 ∧
    (∀ b ∈ List.replicate 20 (0 : Nat), b < 256) ∧
    (checksum_valid (List.replicate 20 0) = true ↔
      (List.replicate 20 (0 : Nat)).sum % 256 = 0) :=
  ⟨by decide, by decide,
    (rsdp_checksum_algebra (List.replicate 20 0) (by decide) (by decide)).1⟩

/-- Length of a little-endian encoding. -/
theorem toLEBytes_length : ∀ n v : Nat, (toLEBytes n v).length = n := by
  intro n
  induction n with
  | zero => intro v; rfl
  | succ n ih => intro v; simp [toLEBytes, ih]

/-- Length of a contiguous root-list encoding. -/
theorem encodeLE_length (w : Nat) : ∀ l : List Nat, (encodeLE w l).length = w * l.length := by
  intro l
  induction l with
  | nil => simp [encodeLE]
  | cons a t ih => simp [encodeLE, toLEBytes_length, ih]; ring

/-- Reading after a cons shifts the offset. -/
theorem readLE_cons_succ (b : Nat) (t : List Nat) :
    ∀ n off : Nat, readLE (b :: t) (off + 1) n = readLE t off n := by
  intro n
  induction n with
  | zero => intro off; rfl
  | succ n ih =>
    intro off
    simp only [readLE, List.getD_cons_succ]
    rw [ih]

/-- Reading past a prefix only sees the suffix. -/
theorem readLE_append_right (rest : List Nat) :
    ∀ (xs : List Nat) (k n : Nat), readLE (xs ++ rest) (xs.length + k) n = readLE rest k n := by
  intro xs
  induction xs with
  | nil => simp
  | cons x xs ih =>
    intro k n
    have h : (x :: xs).length + k = (xs.length + k) + 1 := by simp; omega
    rw [List.cons_append, h, readLE_cons_succ, ih]

/-- Round trip: a `w`-byte little-endian encoding of a value below `256^w`
reads back as that value. -/
theorem readLE_toLEBytes : ∀ (n v : Nat) (rest : List Nat), v < 256 ^ n →
    readLE (toLEBytes n v ++ rest) 0 n = v := by
  intro n
  induction n with
  | zero =>
    intro v rest h
    simp only [pow_zero, Nat.lt_one_iff] at h
    simp [readLE, h]
  | succ n ih =>
    intro v rest h
    simp only [toLEBytes, readLE, List.cons_append, List.getD_cons_zero, Nat.zero_add]
    rw [readLE_cons_succ]
    rw [ih (v / 256) rest ((Nat.div_lt_iff_lt_mul (by norm_num)).mpr (by rw [← pow_succ]; exact h))]
    omega

/-- Indexing a list over its range reproduces the list. -/
theorem range_map_getD : ∀ l : List Nat, (List.range l.length).map (fun i => l.getD i 0) = l := by
  intro l
  induction l with
  | nil => simp
  | cons a t ih =>
    rw [List.length_cons, List.range_succ_eq_map]
    simp only [List.map_cons, List.getD_cons_zero, List.map_map]
    congr 1

/-- Entry `i` of a contiguous `w`-byte encoding decodes to address `i`. -/
theorem encode_decode (w : Nat) : ∀ addrs : List Nat, (∀ a ∈ addrs, a < 256 ^ w) →
    ∀ i, i < addrs.length → readLE (encodeLE w addrs) (w * i) w = addrs.getD i 0 := by
  intro addrs
  induction addrs with
  | nil => intro _ i hi; simp at hi
  | cons a t ih =>
    intro h i hi
    cases i with
    | zero =>
      simp only [Nat.mul_zero, encodeLE, List.getD_cons_zero]
      exact readLE_toLEBytes w a _ (h a (List.mem_cons_self a t))
    | succ i =>
      have hw : w * (i + 1) = (toLEBytes w a).length + w * i := by
        rw [toLEBytes_length]
        ring
      rw [show encodeLE w (a :: t) = toLEBytes w a ++ encodeLE w t from rfl, hw,
        readLE_append_right, List.getD_cons_succ]
      exact ih (fun b hb => h b (List.mem_cons_of_mem a hb)) i (by simpa using hi)

/-- Iterating a `w`-byte root list over its own encoding yields the
original address sequence. -/
theorem entries_encode (w : Nat) (hw : 0 < w) (addrs : List Nat)
    (h : ∀ a ∈ addrs, a < 256 ^ w) :
    (List.range ((encodeLE w addrs).length / w)).map
      (fun i => readLE (encodeLE w addrs) (w * i) w) = addrs := by
  rw [encodeLE_length, Nat.mul_div_cancel_left _ hw]
  have hcong : ∀ i ∈ List.range addrs.length,
      readLE (encodeLE w addrs) (w * i) w = addrs.getD i 0 := by
    intro i hi
    exact encode_decode w addrs h i (List.mem_range.mp hi)
  rw [List.map_congr_left hcong, range_map_getD]

/-- C8: encoding the same addresses (each below `2^32`) as 4-byte RSDT
entries and as 8-byte XSDT entries and iterating with `RsdtIter` resp.
`XsdtIter` yields the original sequence both times — in particular the two
iterations agree. -/
theorem rsdt_xsdt_equivalence (addrs : List Nat) (h : ∀ a ∈ addrs, a < 2 ^ 32) :
    rsdtEntries (encodeLE 4 addrs) = addrs ∧
    xsdtEntries (encodeLE 8 addrs) = addrs ∧
    rsdtEntries (encodeLE 4 addrs) = xsdtEntries (encodeLE 8 addrs) := by
  have h4 : ∀ a ∈ addrs, a < 256 ^ 4 := by
    intro a ha
    have := h a ha
    norm_num at this ⊢
    omega
  have h8 : ∀ a ∈ addrs, a < 256 ^ 8 := by
    intro a ha
    have := h4 a ha
    have hle : (256 : Nat) ^ 4 ≤ 256 ^ 8 := Nat.pow_le_pow_right (by norm_num) (by norm_num)
    omega
  have e4 : rsdtEntries (encodeLE 4 addrs) = addrs := entries_encode 4 (by norm_num) addrs h4
  have e8 : xsdtEntries (encodeLE 8 addrs) = addrs := entries_encode 8 (by norm_num) addrs h8
  exact ⟨e4, e8, by rw [e4, e8]⟩

/-- Witness for C8 at two concrete addresses. -/
theorem rsdt_xsdt_equivalence_witness :
    (∀ a ∈ [(4277534720 : Nat), 739312640], a < 2 ^ 32) ∧
    rsdtEntries (encodeLE 4 [4277534720, 739312640]) = [4277534720, 739312640] :=
  ⟨by decide, (rsdt_xsdt_equivalence [4277534720, 739312640] (by decide)).1⟩

/-- Two byte memories agreeing below `dataLen` yield equal in-bounds
slices. -/
theorem bytesAt_congr (mem mem' : Nat → Nat) (dataLen : Nat)
    (hagree : ∀ j, j < dataLen → mem j = mem' j) (off n : Nat) (hle : off + n ≤ dataLen) :
    bytesAt mem off n = bytesAt mem' off n := by
  unfold bytesAt
  apply List.map_congr_left
  intro j hj
  exact hagree (off + j) (by have := List.mem_range.mp hj; omega)

/-- One `MadtIter::next` step only depends on the bytes below `dataLen`. -/
theorem madtStep_congr (mem mem' : Nat → Nat) (dataLen : Nat)
    (hagree : ∀ j, j < dataLen → mem j = mem' j) (i : Nat) :
    madtStep mem dataLen i = madtStep mem' dataLen i := by
  simp only [madtStep]
  by_cases h1 : i + 1 ≥ dataLen
  · simp [h1]
  · have hi : mem i = mem' i := hagree i (by omega)
    have hi1 : mem (i + 1) = mem' (i + 1) := hagree (i + 1) (by omega)
    simp only [h1, if_false]
    rw [hi, hi1]
    by_cases h2 : i + mem' (i + 1) > dataLen
    · simp [h2]
    · simp only [h2, if_false]
      have hb : ∀ n, 2 + n ≤ mem' (i + 1) → bytesAt mem (i + 2) n = bytesAt mem' (i + 2) n := by
        intro n hn
        exact bytesAt_congr mem mem' dataLen hagree (i + 2) n (by omega)
      split_ifs with hc1 hc2 hc3 hc4 hc5
      · rw [hb MadtLocalApic.size (by omega)]
      · rw [hb MadtIoApic.size (by omega)]
      · rw [hb MadtIntSrcOverride.size (by omega)]
      · rw [hb MadtGicc.size (by omega)]
      · rw [hb MadtGicd.size (by omega)]
      · rfl

/-- C1: the topology iterator is bounded by the table's data region: a
record whose declared length would extend past the data bound stops the
iteration immediately (both as a single step and for the whole remaining
sequence), and the produced sequence depends only on the bytes below
`dataLen` — no byte at or past the data bound is ever read. -/
theorem madt_iter_bounded (mem mem' : Nat → Nat) (dataLen fuel : Nat)
    (hagree : ∀ j, j < dataLen → mem j = mem' j) :
    (∀ i, dataLen < i + mem (i + 1) → madtStep mem dataLen i = none) ∧
    (∀ i, dataLen < i + mem (i + 1) → madtSeq mem dataLen fuel i = []) ∧
    (∀ fuel' i, madtSeq mem dataLen fuel' i = madtSeq mem' dataLen fuel' i) := by
  have hstop : ∀ i, dataLen < i + mem (i + 1) → madtStep mem dataLen i = none := by
    intro i hover
    simp only [madtStep]
    by_cases h1 : i + 1 ≥ dataLen
    · rw [if_pos h1]
    · rw [if_neg h1, if_pos (show i + mem (i + 1) > dataLen from hover)]
  refine ⟨hstop, ?_, ?_⟩
  · intro i hover
    cases fuel with
    | zero => rfl
    | succ n => simp [madtSeq, hstop i hover]
  · intro fuel'
    induction fuel' with
    | zero => intro i; rfl
    | succ n ih =>
      intro i
      simp only [madtSeq]
      rw [madtStep_congr mem mem' dataLen hagree i]
      cases h : madtStep mem' dataLen i with
      | none => rfl
      | some ej =>
        cases ej with
        | mk e j => simp only [ih j]

/-- Witness for C1 at a concrete 12-byte table whose record at offset 8
declares length 200, and a second memory differing only past the bound. -/
theorem madt_iter_bounded_witness :
    (∀ j, j < 12 → (fun j => if j = 9 then 200 else if j < 12 then 0 else 7) j =
      (fun j => if j = 9 then 200 else if j < 12 then 0 else 9) j) ∧
    madtStep (fun j => if j = 9 then 200 else if j < 12 then 0 else 7) 12 8 = none ∧
    madtSeq (fun j => if j = 9 then 200 else if j < 12 then 0 else 7) 12 5 8 =
      madtSeq (fun j => if j = 9 then 200 else if j < 12 then 0 else 9) 12 5 8 := by
  have h := madt_iter_bounded (fun j => if j = 9 then 200 else if j < 12 then 0 else 7)
    (fun j => if j = 9 then 200 else if j < 12 then 0 else 9) 12 5
    (by intro j hj; simp only; split_ifs <;> omega)
  exact ⟨by intro j hj; simp only; split_ifs <;> omega, h.1 8 (by decide), h.2.2 5 8⟩

/-- C4: on an in-bounds record the iterator dispatches to the typed entry
exactly when the tag is `0x0`, `0x1`, `0x2` with declared length equal to
the native payload size plus two (8, 12, 10 bytes), or `0xB`, `0xC` with
declared length at least the native payload size plus two (80, 24 bytes);
otherwise it yields the unknown-tag fallback carrying the raw tag; in all
cases the cursor advances by exactly the declared length. -/
theorem madt_dispatch (mem : Nat → Nat) (dataLen i : Nat)
    (h1 : i + 1 < dataLen) (h2 : i + mem (i + 1) ≤ dataLen) :
    madtStep mem dataLen i = some
      ((if mem i = 0 ∧ mem (i + 1) = 8 then MadtEntry.LocalApic (bytesAt mem (i + 2) 6)
        else if mem i = 1 ∧ mem (i + 1) = 12 then MadtEntry.IoApic (bytesAt mem (i + 2) 10)
        else if mem i = 2 ∧ mem (i + 1) = 10 then MadtEntry.IntSrcOverride (bytesAt mem (i + 2) 8)
        else if mem i = 11 ∧ 80 ≤ mem (i + 1) then MadtEntry.Gicc (bytesAt mem (i + 2) 78)
        else if mem i = 12 ∧ 24 ≤ mem (i + 1) then MadtEntry.Gicd (bytesAt mem (i + 2) 22)
        else MadtEntry.Unknown (mem i)), i + mem (i + 1)) := by
  unfold madtStep
  rw [if_neg (by omega), if_neg (by omega)]
  norm_num [MadtLocalApic.size, MadtIoApic.size, MadtIntSrcOverride.size,
    MadtGicc.size, MadtGicd.size]

/-- Witness for C4 at a concrete local-APIC record. -/
theorem madt_dispatch_witness :
    (0 + 1 < 8) ∧ (0 + (fun j => [0, 8, 1, 2, 0, 0, 0, 0].getD j 0) (0 + 1) ≤ 8) ∧
    madtStep (fun j => [0, 8, 1, 2, 0, 0, 0, 0].getD j 0) 8 0 = some
      ((if (fun j => [0, 8, 1, 2, 0, 0, 0, 0].getD j 0) 0 = 0 ∧
            (fun j => [0, 8, 1, 2, 0, 0, 0, 0].getD j 0) (0 + 1) = 8 then
          MadtEntry.LocalApic (bytesAt (fun j => [0, 8, 1, 2, 0, 0, 0, 0].getD j 0) (0 + 2) 6)
        else if (fun j => [0, 8, 1, 2, 0, 0, 0, 0].getD j 0) 0 = 1 ∧
            (fun j => [0, 8, 1, 2, 0, 0, 0, 0].getD j 0) (0 + 1) = 12 then
          MadtEntry.IoApic (bytesAt (fun j => [0, 8, 1, 2, 0, 0, 0, 0].getD j 0) (0 + 2) 10)
        else if (fun j => [0, 8, 1, 2, 0, 0, 0, 0].getD j 0) 0 = 2 ∧
            (fun j => [0, 8, 1, 2, 0, 0, 0, 0].getD j 0) (0 + 1) = 10 then
          MadtEntry.IntSrcOverride (bytesAt (fun j => [0, 8, 1, 2, 0, 0, 0, 0].getD j 0) (0 + 2) 8)
        else if (fun j => [0, 8, 1, 2, 0, 0, 0, 0].getD j 0) 0 = 11 ∧
            80 ≤ (fun j => [0, 8, 1, 2, 0, 0, 0, 0].getD j 0) (0 + 1) then
          MadtEntry.Gicc (bytesAt (fun j => [0, 8, 1, 2, 0, 0, 0, 0].getD j 0) (0 + 2) 78)
        else if (fun j => [0, 8, 1, 2, 0, 0, 0, 0].getD j 0) 0 = 12 ∧
            24 ≤ (fun j => [0, 8, 1, 2, 0, 0, 0, 0].getD j 0) (0 + 1) then
          MadtEntry.Gicd (bytesAt (fun j => [0, 8, 1, 2, 0, 0, 0, 0].getD j 0) (0 + 2) 22)
        else MadtEntry.Unknown ((fun j => [0, 8, 1, 2, 0, 0, 0, 0].getD j 0) 0)),
        0 + (fun j => [0, 8, 1, 2, 0, 0, 0, 0].getD j 0) (0 + 1)) :=
  ⟨by decide, by decide,
    madt_dispatch (fun j => [0, 8, 1, 2, 0, 0, 0, 0].getD j 0) 8 0 (by decide) (by decide)⟩

/-- C10 failing input: on a table whose data region is 10 zero bytes, the
record at the iterator's start offset 8 declares length 0; the step yields
an unknown entry without advancing the cursor, so the iterator yields one
record per unit of fuel forever — `MadtIter` never terminates. -/
theorem madt_zero_length_entry_loops :
    madtStep (fun _ => 0) 10 8 = some (MadtEntry.Unknown 0, 8) ∧
    (∀ fuel, madtSeq (fun _ => 0) 10 fuel 8 =
      List.replicate fuel (MadtEntry.Unknown 0)) := by
  have hstep : madtStep (fun _ => 0) 10 8 = some (MadtEntry.Unknown 0, 8) := by decide
  refine ⟨hstep, ?_⟩
  intro fuel
  induction fuel with
  | zero => rfl
  | succ n ih => simp [madtSeq, hstep, ih, List.replicate_succ]

/-- Once a distributor has been kept, the collection loop never replaces
it. -/
theorem collect_fst_some (p : List Nat) : ∀ (es : List MadtEntry) (gs : List (List Nat))
    (ls : List LogEvent), (aarch64.collect (some p) gs ls es).1 = some p := by
  intro es
  induction es with
  | nil => intro gs ls; rfl
  | cons e rest ih =>
    intro gs ls
    cases e <;> simp only [aarch64.collect] <;> exact ih _ _

/-- The distributor kept by the collection loop is the first Gicd record. -/
theorem collect_fst_none : ∀ (es : List MadtEntry) (gs : List (List Nat))
    (ls : List LogEvent), (aarch64.collect none gs ls es).1 = madtFirstGicd es := by
  intro es
  induction es with
  | nil => intro gs ls; rfl
  | cons e rest ih =>
    intro gs ls
    cases e with
    | LocalApic p => simp only [aarch64.collect, madtFirstGicd]; exact ih _ _
    | IoApic p => simp only [aarch64.collect, madtFirstGicd]; exact ih _ _
    | IntSrcOverride p => simp only [aarch64.collect, madtFirstGicd]; exact ih _ _
    | Gicc p => simp only [aarch64.collect, madtFirstGicd]; exact ih _ _
    | Gicd p => simp only [aarch64.collect, madtFirstGicd]; exact collect_fst_some p rest _ _
    | Unknown t => simp only [aarch64.collect, madtFirstGicd]; exact ih _ _

/-- The collection loop accumulates exactly the Gicc payloads, in order. -/
theorem collect_giccs : ∀ (es : List MadtEntry) (g : Option (List Nat))
    (gs : List (List Nat)) (ls : List LogEvent),
    (aarch64.collect g gs ls es).2.1 = gs ++ madtGiccs es := by
  intro es
  induction es with
  | nil => intro g gs ls; simp [aarch64.collect, madtGiccs]
  | cons e rest ih =>
    intro g gs ls
    cases e with
    | LocalApic p => simp only [aarch64.collect, madtGiccs]; exact ih _ _ _
    | IoApic p => simp only [aarch64.collect, madtGiccs]; exact ih _ _ _
    | IntSrcOverride p => simp only [aarch64.collect, madtGiccs]; exact ih _ _ _
    | Gicc p =>
      simp only [aarch64.collect, madtGiccs]
      rw [ih]
      simp
    | Gicd p =>
      cases g with
      | none => simp only [aarch64.collect, madtGiccs]; exact ih _ _ _
      | some q => simp only [aarch64.collect, madtGiccs]; exact ih _ _ _
    | Unknown t => simp only [aarch64.collect, madtGiccs]; exact ih _ _ _

/-- With a distributor already kept, every further Gicd record adds one
duplicate-distributor warning. -/
theorem collect_warn_count_some (p : List Nat) : ∀ (es : List MadtEntry)
    (gs : List (List Nat)) (ls : List LogEvent),
    ((aarch64.collect (some p) gs ls es).2.2).count LogEvent.warnMultipleGicd =
      ls.count LogEvent.warnMultipleGicd + madtGicdCount es := by
  intro es
  induction es with
  | nil => intro gs ls; simp [aarch64.collect, madtGicdCount]
  | cons e rest ih =>
    intro gs ls
    cases e with
    | LocalApic q => simp only [aarch64.collect, madtGicdCount]; exact ih _ _
    | IoApic q => simp only [aarch64.collect, madtGicdCount]; exact ih _ _
    | IntSrcOverride q => simp only [aarch64.collect, madtGicdCount]; exact ih _ _
    | Gicc q => simp only [aarch64.collect, madtGicdCount]; exact ih _ _
    | Gicd q =>
      simp only [aarch64.collect, madtGicdCount]
      rw [ih]
      simp [List.count_append]
      omega
    | Unknown t => simp only [aarch64.collect, madtGicdCount]; exact ih _ _

/-- Starting with no distributor, the loop warns once per Gicd record
beyond the first. -/
theorem collect_warn_count_none : ∀ (es : List MadtEntry) (gs : List (List Nat))
    (ls : List LogEvent),
    ((aarch64.collect none gs ls es).2.2).count LogEvent.warnMultipleGicd =
      ls.count LogEvent.warnMultipleGicd + (madtGicdCount es - 1) := by
  intro es
  induction es with
  | nil => intro gs ls; simp [aarch64.collect, madtGicdCount]
  | cons e rest ih =>
    intro gs ls
    cases e with
    | LocalApic q => simp only [aarch64.collect, madtGicdCount]; exact ih _ _
    | IoApic q => simp only [aarch64.collect, madtGicdCount]; exact ih _ _
    | IntSrcOverride q => simp only [aarch64.collect, madtGicdCount]; exact ih _ _
    | Gicc q => simp only [aarch64.collect, madtGicdCount]; exact ih _ _
    | Gicd q =>
      simp only [aarch64.collect, madtGicdCount]
      rw [collect_warn_count_some]
      omega
    | Unknown t => simp only [aarch64.collect, madtGicdCount]; exact ih _ _

/-- C3: aarch64 bring-up keeps only the first distributor record and warns
once per extra one; with no distributor it registers no driver and logs a
warning; with a version-3 distributor and at least one CPU interface it
registers exactly one GicV3 driver; with a version-1 or version-2
distributor it registers exactly one legacy driver built from the first
CPU-interface record only; with any other version it registers none and
logs the unsupported version. -/
theorem aarch64_gic_dispatch (entries : List MadtEntry) :
    ((aarch64.collect none [] [] entries).1 = madtFirstGicd entries) ∧
    ((aarch64.collect none [] [] entries).2.2.count LogEvent.warnMultipleGicd =
      madtGicdCount entries - 1) ∧
    (madtFirstGicd entries = none →
      (aarch64.init entries).1 = [] ∧ LogEvent.warnNoGicd ∈ (aarch64.init entries).2) ∧
    (∀ p, madtFirstGicd entries = some p → MadtGicd.gic_version p = 3 →
      madtGiccs entries ≠ [] →
      (aarch64.init entries).1 = [IrqChipDriver.gicV3 (MadtGicd.physical_base_address p)]) ∧
    (∀ p g0 gs, madtFirstGicd entries = some p →
      (MadtGicd.gic_version p = 1 ∨ MadtGicd.gic_version p = 2) →
      madtGiccs entries = g0 :: gs →
      (aarch64.init entries).1 =
        [IrqChipDriver.gic (MadtGicd.physical_base_address p)
          (MadtGicc.physical_base_address g0)]) ∧
    (∀ p, madtFirstGicd entries = some p → MadtGicd.gic_version p ≠ 1 →
      MadtGicd.gic_version p ≠ 2 → MadtGicd.gic_version p ≠ 3 →
      (aarch64.init entries).1 = [] ∧
      LogEvent.warnUnsupportedGicVersion (MadtGicd.gic_version p) ∈
        (aarch64.init entries).2) := by
  have hfst := collect_fst_none entries [] []
  have hgic := collect_giccs entries none [] []
  have hcnt := collect_warn_count_none entries [] []
  refine ⟨hfst, by simpa using hcnt, ?_, ?_, ?_, ?_⟩
  · intro h
    have h1 : (aarch64.collect none [] [] entries).1 = none := hfst.trans h
    simp [aarch64.init, h1]
  · intro p hp h3 hne
    have h1 : (aarch64.collect none [] [] entries).1 = some p := hfst.trans hp
    obtain ⟨g0, gs, hg⟩ : ∃ g0 gs, madtGiccs entries = g0 :: gs := by
      cases hgg : madtGiccs entries with
      | nil => exact absurd hgg hne
      | cons a l => exact ⟨a, l, rfl⟩
    have hv12 : ¬(MadtGicd.gic_version p = 1 ∨ MadtGicd.gic_version p = 2) := by omega
    simp [aarch64.init, h1, hv12, h3, aarch64.init_gic_v3, hgic, hg]
  · intro p g0 gs hp hv hg
    have h1 : (aarch64.collect none [] [] entries).1 = some p := hfst.trans hp
    rcases hv with hv | hv <;>
      simp [aarch64.init, h1, hv, aarch64.init_gic_legacy, hgic, hg]
  · intro p hp hn1 hn2 hn3
    have h1 : (aarch64.collect none [] [] entries).1 = some p := hfst.trans hp
    have hv12 : ¬(MadtGicd.gic_version p = 1 ∨ MadtGicd.gic_version p = 2) := by omega
    simp [aarch64.init, h1, hv12, hn3]

/-- Witness for C3 at a topology with one CPU interface and one version-3
distributor. -/
theorem aarch64_gic_dispatch_witness :
    madtFirstGicd [MadtEntry.Gicc (List.replicate 78 0),
        MadtEntry.Gicd [0, 0, 0, 0, 0, 0, 0, 0, 0, 0, 0, 0, 0, 0, 0, 0, 0, 0, 3, 0, 0, 0]] =
      some [0, 0, 0, 0, 0, 0, 0, 0, 0, 0, 0, 0, 0, 0, 0, 0, 0, 0, 3, 0, 0, 0] ∧
    MadtGicd.gic_version [0, 0, 0, 0, 0, 0, 0, 0, 0, 0, 0, 0, 0, 0, 0, 0, 0, 0, 3, 0, 0, 0] = 3 ∧
    madtGiccs [MadtEntry.Gicc (List.replicate 78 0),
        MadtEntry.Gicd [0, 0, 0, 0, 0, 0, 0, 0, 0, 0, 0, 0, 0, 0, 0, 0, 0, 0, 3, 0, 0, 0]] ≠ [] ∧
    (aarch64.init [MadtEntry.Gicc (List.replicate 78 0),
        MadtEntry.Gicd [0, 0, 0, 0, 0, 0, 0, 0, 0, 0, 0, 0, 0, 0, 0, 0, 0, 0, 3, 0, 0, 0]]).1 =
      [IrqChipDriver.gicV3 (MadtGicd.physical_base_address
        [0, 0, 0, 0, 0, 0, 0, 0, 0, 0, 0, 0, 0, 0, 0, 0, 0, 0, 3, 0, 0, 0])] :=
  ⟨by decide, by decide, by decide,
    (aarch64_gic_dispatch [MadtEntry.Gicc (List.replicate 78 0),
        MadtEntry.Gicd [0, 0, 0, 0, 0, 0, 0, 0, 0, 0, 0, 0, 0, 0, 0, 0, 0, 0, 3, 0, 0, 0]]).2.2.2.1
      [0, 0, 0, 0, 0, 0, 0, 0, 0, 0, 0, 0, 0, 0, 0, 0, 0, 0, 3, 0, 0, 0]
      (by decide) (by decide) (by decide)⟩
